import Mathlib

/-!
Verification development for the `resume-parser` repository
(`scripts/resume_parser.py` and `scripts/utils.py`).

The Python code is shallowly embedded: each extractor of
`AdvancedResumeParser` becomes a Lean function over an explicit model of
the spaCy document surface (entities, sentences, noun chunks, tokens),
Python string operations are modelled character-exactly on `List Char`
(ASCII range, which covers every input the claims mention), the
`dateparser.parse` call is passed in as a function `String → Option Int`
(a parsed datetime is abstracted to an integer day count; `None` for an
unparseable text), and the batch driver's I/O is modelled as the list of
output files it creates plus the list of lines it prints to stdout.
-/

namespace ResumeSpec

/-- Python whitespace (`str.strip`, regex `\s`), ASCII range. -/
def isSpacePy (c : Char) : Bool :=
  c == ' ' || c == '\t' || c == '\n' || c == '\r' || c == '\x0b' || c == '\x0c'

/-- Python regex word character `\w`, ASCII range. -/
def isWordCharPy (c : Char) : Bool :=
  c.isAlpha || c.isDigit || c == '_'

/-- Python `str.strip()` on a character list. -/
def pyStrip (cs : List Char) : List Char :=
  ((cs.dropWhile isSpacePy).reverse.dropWhile isSpacePy).reverse

/-- Python `str.split(sep)` for a one-character separator. -/
def splitOnChar (sep : Char) : List Char → List (List Char)
  | [] => [[]]
  | c :: rest =>
    if c == sep then [] :: splitOnChar sep rest
    else
      match splitOnChar sep rest with
      | [] => [[c]]
      | g :: gs => (c :: g) :: gs

/-- Case-insensitive prefix test (`re.IGNORECASE`, ASCII case folding). -/
def startsWithCI : List Char → List Char → Bool
  | [], _ => true
  | _ :: _, [] => false
  | k :: ks, c :: cs => (k.toLower == c.toLower) && startsWithCI ks cs

/-- Python substring test (`needle in hay`) on character lists. -/
def occursIn (needle : List Char) : List Char → Bool
  | [] => needle.isPrefixOf []
  | c :: rest => needle.isPrefixOf (c :: rest) || occursIn needle rest

/-- Python substring test (`needle in hay`) on strings. -/
def containsSub (hay needle : String) : Bool :=
  occursIn needle.toList hay.toList

/-- Python `str.split(sep)` for a non-empty separator: scan left to right,
splitting at each non-overlapping occurrence of `sep`. -/
def splitGo (sep : List Char) : Nat → List Char → List Char → List (List Char)
  | _ + 1, a, [] => [a.reverse]
  | skip + 1, a, _ :: rest => splitGo sep skip a rest
  | 0, a, [] => [a.reverse]
  | 0, a, c :: rest =>
    if sep.isPrefixOf (c :: rest) then
      a.reverse :: splitGo sep (sep.length - 1) [] rest
    else
      splitGo sep 0 (c :: a) rest

/-- Python `str.split(sep)` for a non-empty separator: scan left to right,
splitting at each non-overlapping occurrence of `sep`. While `skip` is
positive, `splitGo` is still consuming the characters of a just-matched
separator; at `skip = 0` it either starts a new group at a fresh
separator occurrence or moves one character into the accumulator. -/
def splitOnSep (sep l : List Char) : List (List Char) :=
  splitGo sep 0 [] l

/-- Lookahead alternative `\n\w+:` of the section regexes: a newline, one or
more word characters, then a colon (greedy `\w+` can only stop at the end
of the word-character run, since a word character is never `:`). -/
def labelBoundary : List Char → Bool
  | '\n' :: rest =>
    !(rest.takeWhile isWordCharPy).isEmpty &&
      (rest.dropWhile isWordCharPy).head? == some ':'
  | _ => false

/-- Lookahead alternative `$` (no `re.MULTILINE`): end of text, or just
before a single trailing newline. -/
def atDollar : List Char → Bool
  | [] => true
  | ['\n'] => true
  | _ => false

/-- Lazy capture `(.*?)(?=\n\w+:|$)` under `re.DOTALL`: the shortest prefix
whose end position satisfies the lookahead (`$` holds at the end of the
text, so the capture always terminates there at the latest). -/
def captureUntil : List Char → List Char
  | [] => []
  | c :: rest =>
    if labelBoundary (c :: rest) || atDollar (c :: rest) then []
    else c :: captureUntil rest

/-- Optional colon `:?` (greedy; the rest of the pattern never fails, so the
greedy choice is final). -/
def optColon : List Char → List Char
  | ':' :: rest => rest
  | s => s

/-- Remainder of the summary pattern after its keyword:
`:?\s*(.*?)(?=\n\w+:|$)`. -/
def summaryCapture (s : List Char) : List Char :=
  captureUntil ((optColon s).dropWhile isSpacePy)

/-- Attempt of the summary pattern at one start position: the keyword
alternation `(summary|objective)` case-insensitively, then the capture.
The pattern is not anchored to a line start. -/
def summaryMatchAt (s : List Char) : Option (List Char) :=
  if startsWithCI (("summary").toList) s then some (summaryCapture (s.drop 7))
  else if startsWithCI (("objective").toList) s then some (summaryCapture (s.drop 9))
  else none

/-- Leftmost-match scan of `re.search`: try each start position in order. -/
def summarySearch : List Char → Option (List Char)
  | [] => none
  | c :: rest =>
    match summaryMatchAt (c :: rest) with
    | some cap => some cap
    | none => summarySearch rest

/-- Model of `AdvancedResumeParser._extract_summary`:
`re.search(r"(summary|objective):?\s*(.*?)(?=\n\w+:|$)", text,
re.IGNORECASE | re.DOTALL)`, returning `match.group(2).strip()` when a
match exists and `""` otherwise. -/
def _extract_summary (text : String) : String :=
  match summarySearch text.toList with
  | some cap => String.mk (pyStrip cap)
  | none => ""

/-- Attempt of the education pattern `(education):?(.*?)(?=\n\w+:|$)` at one
start position (no `\s*` after the optional colon in this pattern). -/
def educationMatchAt (s : List Char) : Option (List Char) :=
  if startsWithCI (("education").toList) s then
    some (captureUntil (optColon (s.drop 9)))
  else none

/-- Leftmost-match scan of `re.search` for the education pattern. -/
def educationSearch : List Char → Option (List Char)
  | [] => none
  | c :: rest =>
    match educationMatchAt (c :: rest) with
    | some cap => some cap
    | none => educationSearch rest

/-- Model of `AdvancedResumeParser._extract_education`: the regex capture is
split on newlines, each line is stripped, and non-empty lines are kept
(`[line.strip() for line in group.split chr10 if line.strip()]`);
the empty list when the regex does not match. -/
def _extract_education (text : String) : List String :=
  match educationSearch text.toList with
  | some cap =>
    (((splitOnChar ('\n') cap).map pyStrip).filter (fun l => !l.isEmpty)).map String.mk
  | none => []

/-! ## Data model: the spaCy document surface used by the extractors -/

/-- Entity span of the annotated document: its text, its label, and the
dependency label of its root token (`ent.root.dep_`, read only by
`_extract_positions`). -/
structure Entity where
  text : String
  label : String
  rootDep : String := ""
deriving DecidableEq, Repr

/-- Token of the annotated document: text, part-of-speech tag and lemma
(read only by `_extract_skills`). -/
structure Token where
  text : String
  pos_ : String
  lemma_ : String
deriving DecidableEq, Repr

/-- Sentence of the annotated document: its text and the entities it
contains (`sent.text`, `sent.ents`; read by `_extract_companies`). -/
structure Sentence where
  text : String
  ents : List Entity
deriving DecidableEq, Repr

/-- Annotated document (spaCy `Doc`): each accessor the extractors read is a
field. -/
structure Doc where
  ents : List Entity
  sents : List Sentence
  nounChunks : List String
  tokens : List Token
deriving DecidableEq, Repr

/-! ## Field extractors over entities, sentences, chunks and tokens

Python builds several fields as `list(set(xs))`. CPython's set iteration
order is unspecified; we model `list(set(xs))` as `xs.dedup`, which has the
same membership and no duplicates. No claim depends on the order. -/

/-- Model of `_calculate_experience`'s eligible entity texts: DATE entities
whose text is longer than 4 characters, in document order. -/
def eligibleDateTexts (ents : List Entity) : List String :=
  (ents.filter (fun e => e.label == "DATE" && decide (e.text.length > 4))).map (·.text)

/-- Results of `dateparser.parse` on the eligible texts, in order: the
Python list `dates` right before the length check (`None` entries
included; `dateparser.parse` on a string returns `None` rather than
raising, so the `try/except` around the append never skips an entry). -/
def rawDates (dp : String → Option Int) (ents : List Entity) : List (Option Int) :=
  (eligibleDateTexts ents).map dp

/-- The parsed dates that survive the truthiness filter `[d for d in dates
if d]` (a datetime object is always truthy, `None` is falsy). -/
def validDates (dp : String → Option Int) (ents : List Entity) : List Int :=
  (rawDates dp ents).filterMap id

/-- Model of `AdvancedResumeParser._calculate_experience`. A parsed
datetime is abstracted to an integer day count, so `(d2 - d1).days` is
`d2 - d1`; Python `//` is floor division, `Int.fdiv`. -/
def _calculate_experience (dp : String → Option Int) (ents : List Entity) : Int :=
  let dates := rawDates dp ents
  if dates.length < 2 then 0
  else
    match (dates.filterMap id).insertionSort (· ≤ ·) with
    | [] => 0
    | d :: rest => Int.fdiv ((d :: rest).getLast (List.cons_ne_nil d rest) - d) 365

/-- Model of `AdvancedResumeParser._extract_skills`: noun chunks whose text
contains (case-insensitively) the text of some document token with
part-of-speech VERB and lemma in develop/design/build, together with the
texts of TECH entities, collected into a set. -/
def _extract_skills (doc : Doc) : List String :=
  let chunkSkills := doc.nounChunks.filter (fun chunk =>
    doc.tokens.any (fun t =>
      t.pos_ == "VERB" &&
        (t.lemma_ == "develop" || t.lemma_ == "design" || t.lemma_ == "build") &&
        containsSub chunk.toLower t.text.toLower))
  (chunkSkills ++ (doc.ents.filter (fun e => e.label == "TECH")).map (·.text)).dedup

/-- Company name derived from a sentence containing `" at "`:
`sent.text.split(" at ")[-1].split("(")[0].strip()`. -/
def companyFrom (t : String) : String :=
  let afterAt := (splitOnSep ((" at ").toList) t.toList).getLastD []
  let beforeParen := (splitOnSep (("(").toList) afterAt).headD []
  String.mk (pyStrip beforeParen)

/-- One iteration of `_extract_companies`' sentence loop, threading
(accumulated list, current_company). `current_company` starts as `None`
and both `None` and the empty string fail Python's truthiness test
`if current_company and ...`. -/
def companiesStep (st : List String × Option String) (sent : Sentence) :
    List String × Option String :=
  let cur := if containsSub sent.text (" at ") then some (companyFrom sent.text) else st.2
  match cur with
  | some c =>
    if c != "" && sent.ents.any (fun en => en.label == "ORG") then (st.1 ++ [c], cur)
    else (st.1, cur)
  | none => (st.1, cur)

/-- Model of `AdvancedResumeParser._extract_companies`. -/
def _extract_companies (doc : Doc) : List String :=
  (doc.sents.foldl companiesStep ([], none)).1.dedup

/-- Model of `AdvancedResumeParser._extract_positions`: TITLE entities,
plus entities whose root dependency is `attr` and whose lowercased text
contains `"experience"`, collected into a set. -/
def _extract_positions (doc : Doc) : List String :=
  ((doc.ents.filter (fun e =>
    e.label == "TITLE" ||
      (e.rootDep == "attr" && containsSub e.text.toLower ("experience")))).map (·.text)).dedup

/-- Model of `AdvancedResumeParser._extract_certifications`:
`list(set(ent.text for ent in doc.ents if ent.label_ == "CERTIFICATION"))`. -/
def _extract_certifications (doc : Doc) : List String :=
  ((doc.ents.filter (fun e => e.label == "CERTIFICATION")).map (·.text)).dedup

/-- Model of `AdvancedResumeParser._extract_tools`:
`list(set(ent.text for ent in doc.ents if ent.label_ == "TOOL"))`. -/
def _extract_tools (doc : Doc) : List String :=
  ((doc.ents.filter (fun e => e.label == "TOOL")).map (·.text)).dedup

/-! ## Batch driver (`process_resumes`) and logging (`utils.save_report`)

One input file of the batch is modelled by its name together with the
outcome of `parse_resume` on it and the outcome of `json.dump` into the
already-opened output handle. `with open(output_file, 'w')` creates (or
truncates) the output file before `json.dump` runs, so a dump error
leaves the created file behind. The driver's observable effects are the
output files it creates and the lines it prints to stdout. -/

/-- One file of the input directory, with the outcomes of the two fallible
steps of its processing (the error message when the step raises). -/
structure FileJob where
  name : String
  parseResult : Except String Unit
  dumpResult : Except String Unit
deriving Repr

/-- Effects of a batch run: output files created (in creation order) and
lines printed to stdout. -/
structure BatchOut where
  outputs : List String
  printed : List String
deriving DecidableEq, Repr

/-- Python `file.lower().endswith(".pdf")` (lowercasing modelled per
character, ASCII range). -/
def isPdfName (name : String) : Bool :=
  (".pdf").toList.reverse.isPrefixOf ((name.toList.map Char.toLower).reverse)

/-- Characters before the last `'.'` of a name, `none` when there is no
dot. Helper for `os.path.splitext`. -/
def stemRec : List Char → Option (List Char)
  | [] => none
  | c :: rest =>
    match stemRec rest with
    | some s => some (c :: s)
    | none => if c == '.' then some [] else none

/-- Python `os.path.splitext(name)[0]` for a bare file name (no directory
separators): the part before the last dot, unless every character before
that dot is itself a dot, in which case the whole name is the stem. -/
def splitextStem (name : String) : String :=
  match stemRec name.toList with
  | none => name
  | some s => if s.all (fun c => c == '.') then name else String.mk s

/-- The error line `print(f"Error processing {file}: {str(e)}")`. -/
def errLine (name msg : String) : String :=
  ("Error processing " ++ name ++ ": " ++ msg)

/-- The output path `os.path.join(output_dir, f"{os.path.splitext(file)[0]}.json")`. -/
def outputPath (outputDir name : String) : String :=
  (outputDir ++ "/" ++ splitextStem name ++ ".json")

/-- One iteration of `process_resumes`' loop body over one directory entry. -/
def processStep (outputDir : String) (acc : BatchOut) (job : FileJob) : BatchOut :=
  if isPdfName job.name then
    match job.parseResult with
    | Except.error e => { acc with printed := acc.printed ++ [errLine job.name e] }
    | Except.ok _ =>
      match job.dumpResult with
      | Except.error e =>
        ⟨acc.outputs ++ [outputPath outputDir job.name],
          acc.printed ++ [errLine job.name e]⟩
      | Except.ok _ => { acc with outputs := acc.outputs ++ [outputPath outputDir job.name] }
  else acc

/-- Model of `AdvancedResumeParser.process_resumes` over the listing of the
input directory. -/
def process_resumes (outputDir : String) (jobs : List FileJob) : BatchOut :=
  jobs.foldl (processStep outputDir) ⟨[], []⟩

/-- One append to a log file: target path, open mode and appended line. -/
structure LogWrite where
  path : String
  mode : String
  line : String
deriving DecidableEq, Repr

/-- Python truthiness of an optional string (`None` and `""` are falsy). -/
def truthyStr : Option String → Bool
  | none => false
  | some s => s ≠ ""

/-- Model of `utils.save_report`: `nowDate` stands for
`datetime.now().strftime('%Y%m%d')` and `nowStamp` for the
`datetime.now()` rendered into the line; the file is opened with mode
`'a'` (append). -/
def save_report (reportDir nowDate nowStamp : String) (filename error : Option String) :
    LogWrite :=
  let reportPath := (reportDir ++ "/" ++ "report_" ++ nowDate ++ ".log")
  if truthyStr filename && truthyStr error then
    ⟨reportPath, "a",
      ("[" ++ nowStamp ++ "] Error processing " ++ filename.getD "" ++ ": " ++
        error.getD "" ++ "\n")⟩
  else
    ⟨reportPath, "a", ("[" ++ nowStamp ++ "] Processing started\n")⟩

/-- Python `s.endswith(suffix)`. -/
def endsWithStr (s suffix : String) : Bool :=
  suffix.toList.reverse.isPrefixOf s.toList.reverse

/-! ## Definition modelled from the claim's words, for comparison

Claim C5 reads the summary rule as matching only a *line beginning*
`summary:` or `objective:` (with a mandatory colon). The following
definition renders those words line by line; it is compared against the
code's `_extract_summary` above. -/

/-- Modelled from the claim: split the text into lines; the summary is
taken from the first line that begins (case-insensitively) with
`summary:` or `objective:`, capturing the remainder of that line and
every following line up to the next `Label:` line or the end of the
text; the empty string when no such line exists. -/
def lineIsLabel (l : List Char) : Bool :=
  !(l.takeWhile isWordCharPy).isEmpty && (l.dropWhile isWordCharPy).head? == some ':'

/-- Capture of `summaryClaimed` once its labelled line is found: the first
line's remainder plus the following lines before the next `Label:` line,
joined with newlines and stripped. -/
def summaryClaimedCapture (first : List Char) (rest : List (List Char)) : String :=
  let more := rest.takeWhile (fun l => !(lineIsLabel l))
  String.mk (pyStrip ((first :: more).intersperse ['\n']).flatten)

/-- Modelled from the claim: line-anchored summary extraction. -/
def summaryClaimedGo : List (List Char) → String
  | [] => ""
  | l :: rest =>
    if startsWithCI (("summary:").toList) l then summaryClaimedCapture (l.drop 8) rest
    else if startsWithCI (("objective:").toList) l then summaryClaimedCapture (l.drop 10) rest
    else summaryClaimedGo rest

/-- Modelled from the claim: the summary rule as the claim words it. -/
def summaryClaimed (text : String) : String :=
  summaryClaimedGo (splitOnChar ('\n') text.toList)

/-! ## Helper lemmas -/

/-- Head of a sorted list bounds every element from below. -/
lemma sorted_head_le (a : Int) (t : List Int)
    (hs : (a :: t).Sorted (fun x y => x ≤ y)) : ∀ x ∈ a :: t, a ≤ x := by
  intro x hx
  rcases List.mem_cons.mp hx with rfl | h
  · exact le_refl x
  · exact (List.sorted_cons.mp hs).1 x h

/-- Last element of a sorted list bounds every element from above. -/
lemma sorted_le_getLast (l : List Int) :
    l.Sorted (fun x y => x ≤ y) → ∀ (hne : l ≠ []) (x : Int), x ∈ l → x ≤ l.getLast hne := by
  induction l with
  | nil => intro _ hne; exact absurd rfl hne
  | cons a t ih =>
    intro hs hne x hx
    cases t with
    | nil =>
      rw [List.mem_singleton] at hx
      subst hx
      rfl
    | cons b t2 =>
      rw [List.getLast_cons (List.cons_ne_nil b t2)]
      rcases List.mem_cons.mp hx with rfl | hx2
      · exact (List.sorted_cons.mp hs).1 _ (List.getLast_mem (List.cons_ne_nil b t2))
      · exact ih (List.sorted_cons.mp hs).2 (List.cons_ne_nil b t2) x hx2

/-- Floor division of a non-negative integer by 365 is non-negative. -/
lemma fdiv365_nonneg (a : Int) (ha : 0 ≤ a) : 0 ≤ Int.fdiv a 365 := by
  obtain ⟨m, rfl⟩ := Int.eq_ofNat_of_zero_le ha
  cases m with
  | zero => decide
  | succ k => exact Int.ofNat_nonneg _

/-- Characterization of `_calculate_experience` by its branches. -/
lemma calc_char (dp : String → Option Int) (ents : List Entity) :
    _calculate_experience dp ents =
      if (rawDates dp ents).length < 2 then 0
      else
        match (validDates dp ents).insertionSort (· ≤ ·) with
        | [] => 0
        | d :: rest => Int.fdiv ((d :: rest).getLast (List.cons_ne_nil d rest) - d) 365 :=
  rfl

/-- Central analysis of `_calculate_experience`: fewer than two valid dates
yield 0, and with at least one valid date the result is the floor-divided
difference of the extreme valid dates. -/
lemma calc_analysis (dp : String → Option Int) (ents : List Entity) :
    ((validDates dp ents).length < 2 → _calculate_experience dp ents = 0) ∧
    (1 ≤ (validDates dp ents).length →
      ∃ lo hi, lo ∈ validDates dp ents ∧ hi ∈ validDates dp ents ∧
        (∀ x ∈ validDates dp ents, lo ≤ x ∧ x ≤ hi) ∧
        _calculate_experience dp ents = Int.fdiv (hi - lo) 365) := by
  have hlen : (validDates dp ents).length ≤ (rawDates dp ents).length :=
    List.length_filterMap_le id (rawDates dp ents)
  rw [calc_char]
  by_cases hR : (rawDates dp ents).length < 2
  · rw [if_pos hR]
    refine ⟨fun _ => rfl, fun h1 => ?_⟩
    have hV1 : (validDates dp ents).length = 1 := by omega
    obtain ⟨d, hd⟩ := List.length_eq_one.mp hV1
    refine ⟨d, d, by simp [hd], by simp [hd], by simp [hd], ?_⟩
    simp only [sub_self]
    decide
  · rw [if_neg hR]
    have hperm := List.perm_insertionSort (· ≤ ·) (validDates dp ents)
    have hsort := List.sorted_insertionSort (· ≤ ·) (validDates dp ents)
    rcases hins : (validDates dp ents).insertionSort (· ≤ ·) with _ | ⟨d, rest⟩
    · rw [hins] at hperm
      have : validDates dp ents = [] := (List.Perm.nil_eq hperm).symm
      constructor
      · intro _; rfl
      · intro h1
        rw [this] at h1
        simp at h1
    · rw [hins] at hperm hsort
      have hmemiff : ∀ x : Int, x ∈ d :: rest ↔ x ∈ validDates dp ents :=
        fun x => hperm.mem_iff
      have hlast_mem : (d :: rest).getLast (List.cons_ne_nil d rest) ∈ d :: rest :=
        List.getLast_mem (List.cons_ne_nil d rest)
      constructor
      · intro hVlt
        have hlen2 : (d :: rest).length = (validDates dp ents).length := hperm.length_eq
        have : rest = [] := by
          cases rest with
          | nil => rfl
          | cons b t =>
            exfalso
            simp only [List.length_cons] at hlen2
            omega
        subst this
        simp only [List.getLast_singleton, sub_self]
        decide
      · intro _
        refine ⟨d, (d :: rest).getLast (List.cons_ne_nil d rest),
          (hmemiff d).mp (List.mem_cons_self d rest), (hmemiff _).mp hlast_mem,
          fun x hx => ?_, rfl⟩
        have hx2 : x ∈ d :: rest := (hmemiff x).mpr hx
        exact ⟨sorted_head_le d rest hsort x hx2,
          sorted_le_getLast (d :: rest) hsort (List.cons_ne_nil d rest) x hx2⟩

/-- Leftmost-match scan of the summary pattern finds nothing when no start
position matches. -/
lemma summarySearch_none (cs : List Char)
    (h : ∀ i : Nat, summaryMatchAt (cs.drop i) = none) : summarySearch cs = none := by
  induction cs with
  | nil => rfl
  | cons c rest ih =>
    have h0 := h 0
    rw [List.drop_zero] at h0
    unfold summarySearch
    rw [h0]
    exact ih (fun i => by have hi := h (i + 1); rwa [List.drop_succ_cons] at hi)

/-- Leftmost-match scan of the summary pattern returns the capture of the
first matching start position. -/
lemma summarySearch_first (cs : List Char) (i : Nat) (cap : List Char)
    (hm : summaryMatchAt (cs.drop i) = some cap)
    (hmin : ∀ j : Nat, j < i → summaryMatchAt (cs.drop j) = none) :
    summarySearch cs = some cap := by
  induction cs generalizing i with
  | nil =>
    rw [List.drop_nil] at hm
    rw [show summaryMatchAt ([] : List Char) = none from by decide] at hm
    cases hm
  | cons c rest ih =>
    cases i with
    | zero =>
      rw [List.drop_zero] at hm
      unfold summarySearch
      rw [hm]
    | succ k =>
      have h0 := hmin 0 (Nat.succ_pos k)
      rw [List.drop_zero] at h0
      unfold summarySearch
      rw [h0]
      refine ih k (by rwa [List.drop_succ_cons] at hm) (fun j hj => ?_)
      have := hmin (j + 1) (Nat.succ_lt_succ hj)
      rwa [List.drop_succ_cons] at this

/-- With no `" at "` in any sentence, the companies loop never changes its
state. -/
lemma companies_no_at (sents : List Sentence)
    (h : ∀ s ∈ sents, containsSub s.text (" at ") = false) (acc : List String) :
    sents.foldl companiesStep (acc, none) = (acc, none) := by
  induction sents with
  | nil => rfl
  | cons s ss ih =>
    rw [List.foldl_cons]
    have hs : containsSub s.text (" at ") = false := h s (List.mem_cons_self s ss)
    have hstep : companiesStep (acc, none) s = (acc, none) := by
      simp [companiesStep, hs]
    rw [hstep]
    exact ih (fun t ht => h t (List.mem_cons_of_mem s ht))

/-- With no further `" at "`, `current_company` persists through the loop,
already-accumulated entries are kept, and it is appended as soon as a
sentence carries an ORG entity. -/
lemma companies_persist (sents : List Sentence) (c : String) (hc : c ≠ "")
    (hat : ∀ s ∈ sents, containsSub s.text (" at ") = false) :
    ∀ acc : List String,
      (sents.foldl companiesStep (acc, some c)).2 = some c ∧
      (∀ x ∈ acc, x ∈ (sents.foldl companiesStep (acc, some c)).1) ∧
      ((∃ s ∈ sents, s.ents.any (fun en => en.label == "ORG") = true) →
        c ∈ (sents.foldl companiesStep (acc, some c)).1) := by
  induction sents with
  | nil =>
    intro acc
    refine ⟨rfl, fun x hx => hx, ?_⟩
    rintro ⟨s, hs, -⟩
    cases hs
  | cons s ss ih =>
    intro acc
    have hs : containsSub s.text (" at ") = false := hat s (List.mem_cons_self s ss)
    have hat2 : ∀ t ∈ ss, containsSub t.text (" at ") = false :=
      fun t ht => hat t (List.mem_cons_of_mem s ht)
    have hcb : (c != "") = true := by
      simp only [bne_iff_ne, ne_eq]
      exact hc
    rcases horg : s.ents.any (fun en => en.label == "ORG") with _ | _
    · have hstep : companiesStep (acc, some c) s = (acc, some c) := by
        simp [companiesStep, hs, horg]
      rw [List.foldl_cons, hstep]
      obtain ⟨h1, h2, h3⟩ := ih hat2 acc
      refine ⟨h1, h2, ?_⟩
      rintro ⟨t, ht, htorg⟩
      rcases List.mem_cons.mp ht with rfl | ht2
      · rw [horg] at htorg
        cases htorg
      · exact h3 ⟨t, ht2, htorg⟩
    · have hstep : companiesStep (acc, some c) s = (acc ++ [c], some c) := by
        simp [companiesStep, hs, horg, hcb]
      rw [List.foldl_cons, hstep]
      obtain ⟨h1, h2, h3⟩ := ih hat2 (acc ++ [c])
      refine ⟨h1, fun x hx => h2 x (List.mem_append_left _ hx), fun _ => ?_⟩
      exact h2 c (List.mem_append_right _ (List.mem_singleton.mpr rfl))

/-- Every step of the batch loop only appends to the accumulated effects. -/
lemma processStep_shift (outputDir : String) (acc : BatchOut) (j : FileJob) :
    processStep outputDir acc j =
      ⟨acc.outputs ++ (processStep outputDir ⟨[], []⟩ j).outputs,
        acc.printed ++ (processStep outputDir ⟨[], []⟩ j).printed⟩ := by
  rcases acc with ⟨os, ps⟩
  rcases j with ⟨n, pr, dr⟩
  by_cases h : isPdfName n
  · rcases pr with e | u
    · simp [processStep, h]
    · rcases dr with e | u <;> simp [processStep, h]
  · simp [processStep, h]

/-- The batch run is the concatenation of each file's individual effects:
the loop carries no state across files. -/
lemma process_resumes_shift (outputDir : String) (jobs : List FileJob) (acc : BatchOut) :
    jobs.foldl (processStep outputDir) acc =
      ⟨acc.outputs ++ (process_resumes outputDir jobs).outputs,
        acc.printed ++ (process_resumes outputDir jobs).printed⟩ := by
  induction jobs generalizing acc with
  | nil =>
    rcases acc with ⟨os, ps⟩
    simp [process_resumes]
  | cons j rest ih =>
    rw [List.foldl_cons, ih (processStep outputDir acc j)]
    have hrhs : process_resumes outputDir (j :: rest) =
        ⟨(processStep outputDir ⟨[], []⟩ j).outputs ++ (process_resumes outputDir rest).outputs,
          (processStep outputDir ⟨[], []⟩ j).printed ++ (process_resumes outputDir rest).printed⟩ := by
      show (j :: rest).foldl (processStep outputDir) ⟨[], []⟩ = _
      rw [List.foldl_cons, ih (processStep outputDir ⟨[], []⟩ j)]
    rw [hrhs, processStep_shift outputDir acc j]
    simp

/-- Effects of a batch over an appended listing decompose. -/
lemma process_resumes_append (outputDir : String) (xs ys : List FileJob) :
    process_resumes outputDir (xs ++ ys) =
      ⟨(process_resumes outputDir xs).outputs ++ (process_resumes outputDir ys).outputs,
        (process_resumes outputDir xs).printed ++ (process_resumes outputDir ys).printed⟩ := by
  show (xs ++ ys).foldl (processStep outputDir) ⟨[], []⟩ = _
  rw [List.foldl_append, process_resumes_shift outputDir ys]
  rfl

/-- Every path the driver creates ends in `.json`. -/
lemma process_outputs_json (outputDir : String) (jobs : List FileJob) :
    ∀ o ∈ (process_resumes outputDir jobs).outputs, endsWithStr o (".json") = true := by
  induction jobs with
  | nil =>
    intro o ho
    cases ho
  | cons j rest ih =>
    intro o ho
    have hcons : process_resumes outputDir (j :: rest) =
        ⟨(processStep outputDir ⟨[], []⟩ j).outputs ++ (process_resumes outputDir rest).outputs,
          (processStep outputDir ⟨[], []⟩ j).printed ++ (process_resumes outputDir rest).printed⟩ := by
      show (j :: rest).foldl (processStep outputDir) ⟨[], []⟩ = _
      rw [List.foldl_cons, process_resumes_shift outputDir rest]
    rw [hcons] at ho
    rcases List.mem_append.mp ho with hL | hR
    · have hforms : (processStep outputDir ⟨[], []⟩ j).outputs = [] ∨
          (processStep outputDir ⟨[], []⟩ j).outputs = [outputPath outputDir j.name] := by
        rcases j with ⟨n, pr, dr⟩
        by_cases h : isPdfName n
        · rcases pr with e | u
          · left; simp [processStep, h]
          · rcases dr with e | u
            · right; simp [processStep, h]
            · right; simp [processStep, h]
        · left; simp [processStep, h]
      rcases hforms with hnil | hone
      · rw [hnil] at hL
        cases hL
      · rw [hone] at hL
        rw [List.mem_singleton] at hL
        subst hL
        show ((".json").toList.reverse.isPrefixOf (outputPath outputDir j.name).toList.reverse) = true
        rw [List.isPrefixOf_iff_prefix]
        have : (outputPath outputDir j.name).toList =
            (outputDir ++ "/" ++ splitextStem j.name).toList ++ (".json").toList := by
          show (outputDir ++ "/" ++ splitextStem j.name ++ ".json").data = _
          rw [String.data_append]
          rfl
        rw [this, List.reverse_append]
        exact List.prefix_append _ _
    · exact ih o hR

/-! ## Claims -/

/-- C1 (counterexample): the education field is NOT deduplicated — on the
text `"Education:\nBS\nBS"` the extractor returns `["BS", "BS"]`, which
contains a duplicate string, so the claim that every list-valued field
(education included) is duplicate-free fails on the code. -/
theorem c1_education_dup_counterexample :
    _extract_education ("Education:\nBS\nBS") = ["BS", "BS"] ∧
    ¬ (_extract_education ("Education:\nBS\nBS")).Nodup := by
  constructor
  · decide
  · decide

/-- C1 (amended): every list-valued output field EXCEPT education is
deduplicated before serialization: skills, companies, positions,
certifications and tools contain no duplicate strings for any document.
Education is the stripped non-empty lines of its section in order and may
contain duplicates. -/
theorem c1_dedup_amended (doc : Doc) :
    (_extract_skills doc).Nodup ∧ (_extract_companies doc).Nodup ∧
    (_extract_positions doc).Nodup ∧ (_extract_certifications doc).Nodup ∧
    (_extract_tools doc).Nodup :=
  ⟨List.nodup_dedup _, List.nodup_dedup _, List.nodup_dedup _, List.nodup_dedup _,
    List.nodup_dedup _⟩

/-- C2: total_experience is 0 whenever fewer than two valid dates survive
parsing of the DATE entities with text longer than 4 characters; with at
least two valid dates it equals the floor-divided difference of the
extreme valid dates (latest minus earliest, `// 365`); and the result is
always non-negative. -/
theorem c2_total_experience (dp : String → Option Int) (ents : List Entity) :
    ((validDates dp ents).length < 2 → _calculate_experience dp ents = 0) ∧
    (2 ≤ (validDates dp ents).length →
      ∃ lo hi, lo ∈ validDates dp ents ∧ hi ∈ validDates dp ents ∧
        (∀ d ∈ validDates dp ents, lo ≤ d ∧ d ≤ hi) ∧
        _calculate_experience dp ents = Int.fdiv (hi - lo) 365) ∧
    0 ≤ _calculate_experience dp ents := by
  obtain ⟨h0, h1⟩ := calc_analysis dp ents
  refine ⟨h0, fun h2 => h1 (by omega), ?_⟩
  by_cases hl : (validDates dp ents).length < 2
  · rw [h0 hl]
  · obtain ⟨lo, hi, hlo, hhi, hb, heq⟩ := h1 (by omega)
    rw [heq]
    exact fdiv365_nonneg _ (sub_nonneg.mpr (hb hi hhi).1)

/-- C2 witness: two DATE entities parsed to day numbers 0 and 3653 give at
least two valid dates, and the theorem produces the extreme-difference
form of the result. -/
theorem c2_total_experience_witness :
    2 ≤ (validDates (fun t => if t == "January 2010" then some 0 else
        if t == "January 2020" then some 3653 else none)
      [Entity.mk ("January 2010") ("DATE") (""),
        Entity.mk ("January 2020") ("DATE") ("")]).length ∧
    (∃ lo hi, lo ∈ validDates (fun t => if t == "January 2010" then some 0 else
          if t == "January 2020" then some 3653 else none)
        [Entity.mk ("January 2010") ("DATE") (""),
          Entity.mk ("January 2020") ("DATE") ("")] ∧
      hi ∈ validDates (fun t => if t == "January 2010" then some 0 else
          if t == "January 2020" then some 3653 else none)
        [Entity.mk ("January 2010") ("DATE") (""),
          Entity.mk ("January 2020") ("DATE") ("")] ∧
      (∀ d ∈ validDates (fun t => if t == "January 2010" then some 0 else
            if t == "January 2020" then some 3653 else none)
          [Entity.mk ("January 2010") ("DATE") (""),
            Entity.mk ("January 2020") ("DATE") ("")], lo ≤ d ∧ d ≤ hi) ∧
      _calculate_experience (fun t => if t == "January 2010" then some 0 else
          if t == "January 2020" then some 3653 else none)
        [Entity.mk ("January 2010") ("DATE") (""),
          Entity.mk ("January 2020") ("DATE") ("")] = Int.fdiv (hi - lo) 365) :=
  ⟨by decide, (c2_total_experience _ _).2.1 (by decide)⟩

/-- C3 (counterexample): an error raised while writing (after
`open(output_file, 'w')` has already created the file) leaves an output
JSON file behind, contradicting the claim that a failing file produces no
output JSON file. -/
theorem c3_write_error_counterexample :
    (process_resumes ("out")
        [FileJob.mk ("a.pdf") (Except.ok ()) (Except.error "disk full")]).outputs =
      ["out/a.json"] ∧
    (process_resumes ("out")
        [FileJob.mk ("a.pdf") (Except.ok ()) (Except.error "disk full")]).printed =
      [errLine ("a.pdf") ("disk full")] := by
  constructor
  · decide
  · decide

/-- C3 (amended): a file whose parse raises contributes no output file and
exactly one printed error line containing the filename and the message,
and the batch before and after it is processed exactly as it would be on
its own (per-document failure isolation, no retry, no abort); an error
during writing, however, leaves the already-created output file behind. -/
theorem c3_failure_isolation (outputDir : String) (pre post : List FileJob)
    (j : FileJob) (e : String)
    (hpdf : isPdfName j.name = true) (hparse : j.parseResult = Except.error e) :
    (process_resumes outputDir (pre ++ j :: post)).outputs =
      (process_resumes outputDir pre).outputs ++ (process_resumes outputDir post).outputs ∧
    (process_resumes outputDir (pre ++ j :: post)).printed =
      (process_resumes outputDir pre).printed ++ [errLine j.name e] ++
        (process_resumes outputDir post).printed := by
  have hj : processStep outputDir ⟨[], []⟩ j = ⟨[], [errLine j.name e]⟩ := by
    rcases j with ⟨n, pr, dr⟩
    simp only at hparse
    subst hparse
    simp [processStep, hpdf]
  have hcons : process_resumes outputDir (j :: post) =
      ⟨(processStep outputDir ⟨[], []⟩ j).outputs ++ (process_resumes outputDir post).outputs,
        (processStep outputDir ⟨[], []⟩ j).printed ++
          (process_resumes outputDir post).printed⟩ := by
    show (j :: post).foldl (processStep outputDir) ⟨[], []⟩ = _
    rw [List.foldl_cons, process_resumes_shift outputDir post]
  rw [hj] at hcons
  rw [process_resumes_append outputDir pre (j :: post), hcons]
  constructor
  · simp
  · simp

/-- C3 witness: a parse failure on `a.pdf` in the middle of a batch leaves
the effects of the surrounding good files unchanged and prints its one
error line in between. -/
theorem c3_failure_isolation_witness :
    (process_resumes ("out")
        ([FileJob.mk ("b.pdf") (Except.ok ()) (Except.ok ())] ++
          FileJob.mk ("a.pdf") (Except.error "boom") (Except.ok ()) ::
            [FileJob.mk ("c.pdf") (Except.ok ()) (Except.ok ())])).outputs =
      (process_resumes ("out")
          [FileJob.mk ("b.pdf") (Except.ok ()) (Except.ok ())]).outputs ++
        (process_resumes ("out")
          [FileJob.mk ("c.pdf") (Except.ok ()) (Except.ok ())]).outputs ∧
    (process_resumes ("out")
        ([FileJob.mk ("b.pdf") (Except.ok ()) (Except.ok ())] ++
          FileJob.mk ("a.pdf") (Except.error "boom") (Except.ok ()) ::
            [FileJob.mk ("c.pdf") (Except.ok ()) (Except.ok ())])).printed =
      (process_resumes ("out")
          [FileJob.mk ("b.pdf") (Except.ok ()) (Except.ok ())]).printed ++
        [errLine ("a.pdf") ("boom")] ++
        (process_resumes ("out")
          [FileJob.mk ("c.pdf") (Except.ok ()) (Except.ok ())]).printed :=
  c3_failure_isolation "out" [FileJob.mk ("b.pdf") (Except.ok ()) (Except.ok ())]
    [FileJob.mk ("c.pdf") (Except.ok ()) (Except.ok ())]
    (FileJob.mk ("a.pdf") (Except.error "boom") (Except.ok ())) "boom" (by decide) rfl

/-- C4 (counterexample): a per-file processing error is only printed to
stdout; the run creates no file at all (outputs is empty), in particular
no line is appended to any `report_<YYYYMMDD>.log` — the driver never
calls `utils.save_report`. -/
theorem c4_driver_log_counterexample :
    process_resumes ("out") [FileJob.mk ("a.pdf") (Except.error "boom") (Except.ok ())] =
      ⟨[], [errLine ("a.pdf") ("boom")]⟩ := by
  decide

/-- C4 (amended): `utils.save_report`, when called, appends a timestamped
error line (given a non-empty filename and error) or a start-of-run
marker to the daily file `report_<YYYYMMDD>.log` in append mode — but the
batch driver never invokes it: every path the driver writes ends in
`.json`, and per-file errors go to stdout. -/
theorem c4_logging_amended (reportDir nowDate nowStamp f e : String)
    (hf : f ≠ "") (he : e ≠ "") :
    save_report reportDir nowDate nowStamp (some f) (some e) =
      ⟨reportDir ++ "/" ++ "report_" ++ nowDate ++ ".log", "a",
        "[" ++ nowStamp ++ "] Error processing " ++ f ++ ": " ++ e ++ "\n"⟩ ∧
    save_report reportDir nowDate nowStamp none none =
      ⟨reportDir ++ "/" ++ "report_" ++ nowDate ++ ".log", "a",
        "[" ++ nowStamp ++ "] Processing started\n"⟩ ∧
    (∀ (outputDir : String) (jobs : List FileJob),
      ∀ o ∈ (process_resumes outputDir jobs).outputs, endsWithStr o (".json") = true) := by
  refine ⟨?_, rfl, fun outputDir jobs => process_outputs_json outputDir jobs⟩
  have hft : truthyStr (some f) = true := by
    simpa [truthyStr] using hf
  have het : truthyStr (some e) = true := by
    simpa [truthyStr] using he
  simp [save_report, hft, het]

/-- C4 witness: the amended logging statement at a concrete date, filename
and error message. -/
theorem c4_logging_amended_witness :
    save_report ("rep") ("20261012") ("TS") (some ("a.pdf")) (some ("boom")) =
      ⟨("rep") ++ "/" ++ "report_" ++ ("20261012") ++ ".log", "a",
        "[" ++ ("TS") ++ "] Error processing " ++ ("a.pdf") ++ ": " ++ ("boom") ++ "\n"⟩ :=
  (c4_logging_amended "rep" "20261012" "TS" "a.pdf" "boom" (by decide) (by decide)).1

/-- C5 (counterexample): the summary regex is not anchored to a line start
and its colon is optional — on `"my summary is great"` (where no line
begins with `summary:` or `objective:`) the code returns `"is great"`
while the claim demands the empty string. -/
theorem c5_line_anchor_counterexample :
    summaryClaimed ("my summary is great") = "" ∧
    _extract_summary ("my summary is great") = "is great" ∧
    ¬ summaryClaimed ("my summary is great") =
        _extract_summary ("my summary is great") := by
  refine ⟨by decide, by decide, by decide⟩

/-- C5 (amended): the summary equals the stripped capture at the FIRST
position anywhere in the text (not only at a line start) where
`summary` or `objective` matches case-insensitively, the colon and
following whitespace being optional, the capture running up to the next
newline-`Label:` boundary or the end of the text; and it is the empty
string when no position matches. -/
theorem c5_summary_amended (text : String) :
    ((∀ i : Nat, summaryMatchAt (text.toList.drop i) = none) →
      _extract_summary text = "") ∧
    (∀ (i : Nat) (cap : List Char), summaryMatchAt (text.toList.drop i) = some cap →
      (∀ j : Nat, j < i → summaryMatchAt (text.toList.drop j) = none) →
      _extract_summary text = String.mk (pyStrip cap)) := by
  constructor
  · intro h
    unfold _extract_summary
    rw [summarySearch_none text.toList h]
  · intro i cap hm hmin
    unfold _extract_summary
    rw [summarySearch_first text.toList i cap hm hmin]

/-- C5 witness: on `"my summary is great"` the first matching position is
index 3 (inside the line), and the theorem computes the result
`"is great"`. -/
theorem c5_summary_amended_witness :
    _extract_summary ("my summary is great") = String.mk (pyStrip (("is great").toList)) :=
  (c5_summary_amended ("my summary is great")).2 3 (("is great").toList)
    (by decide) (by decide)

/-- C6: on the text `"Summary: Built scalable systems.\nEducation: BS
Computer Science"` the summary extractor returns
`"Built scalable systems."` and the education extractor returns
`["BS Computer Science"]`. -/
theorem c6_summary_education_example :
    _extract_summary ("Summary: Built scalable systems.\nEducation: BS Computer Science") =
      "Built scalable systems." ∧
    _extract_education ("Summary: Built scalable systems.\nEducation: BS Computer Science") =
      ["BS Computer Science"] := by
  constructor
  · decide
  · decide

/-- C7: `current_company` is set from the text after the last `" at "`
(truncated before `"("` and trimmed) and persists across later sentences
without `" at "`, being appended when such a sentence carries an ORG
entity; in particular on the two sentences
`"I worked at Acme Corp (NYC)"` / `"We shipped features."` (the second
containing an ORG entity) the result is `["Acme Corp"]`, not
`["Acme Corp (NYC)"]`. -/
theorem c7_companies_tracking (doc : Doc) (s1 : Sentence) (rest : List Sentence)
    (hdoc : doc.sents = s1 :: rest)
    (hat : containsSub s1.text (" at ") = true)
    (hc : companyFrom s1.text ≠ "")
    (hrest : ∀ s ∈ rest, containsSub s.text (" at ") = false)
    (horg : ∃ s ∈ rest, s.ents.any (fun en => en.label == "ORG") = true) :
    companyFrom s1.text ∈ _extract_companies doc ∧
    _extract_companies (Doc.mk []
        [Sentence.mk ("I worked at Acme Corp (NYC)") [],
          Sentence.mk ("We shipped features.") [Entity.mk ("features") ("ORG") ("")]]
        [] []) = ["Acme Corp"] ∧
    companyFrom ("I worked at Acme Corp (NYC)") = "Acme Corp" := by
  refine ⟨?_, by decide, by decide⟩
  unfold _extract_companies
  rw [hdoc, List.foldl_cons, List.mem_dedup]
  have hcb : (companyFrom s1.text != "") = true := by
    simpa [bne_iff_ne] using hc
  have hstep : ∃ acc0 : List String,
      companiesStep ([], none) s1 = (acc0, some (companyFrom s1.text)) := by
    rcases horg1 : s1.ents.any (fun en => en.label == "ORG") with _ | _
    · exact ⟨[], by simp [companiesStep, hat, horg1]⟩
    · exact ⟨[companyFrom s1.text], by simp [companiesStep, hat, horg1, hcb]⟩
  obtain ⟨acc0, hstep⟩ := hstep
  rw [hstep]
  exact (companies_persist rest (companyFrom s1.text) hc hrest acc0).2.2 horg

/-- C7 witness: the theorem applied to the Acme document itself. -/
theorem c7_companies_tracking_witness :
    companyFrom ("I worked at Acme Corp (NYC)") ∈
      _extract_companies (Doc.mk []
        [Sentence.mk ("I worked at Acme Corp (NYC)") [],
          Sentence.mk ("We shipped features.") [Entity.mk ("features") ("ORG") ("")]]
        [] []) :=
  (c7_companies_tracking
    (Doc.mk []
      [Sentence.mk ("I worked at Acme Corp (NYC)") [],
        Sentence.mk ("We shipped features.") [Entity.mk ("features") ("ORG") ("")]]
      [] [])
    (Sentence.mk ("I worked at Acme Corp (NYC)") [])
    [Sentence.mk ("We shipped features.") [Entity.mk ("features") ("ORG") ("")]]
    rfl (by decide) (by decide) (by decide) (by decide)).1

/-- C8: certifications are exactly the CERTIFICATION entity texts and tools
exactly the TOOL entity texts (as deduplicated sets, i.e. by membership),
skills contain every TECH entity text; and on the entity set
AWS/TECH, Certified Solutions/CERTIFICATION, Docker/TOOL the outputs are
as the claim lists them. -/
theorem c8_entity_label_fields (doc : Doc) :
    (∀ s : String, s ∈ _extract_certifications doc ↔
      ∃ en, en ∈ doc.ents ∧ en.label = "CERTIFICATION" ∧ en.text = s) ∧
    (∀ s : String, s ∈ _extract_tools doc ↔
      ∃ en, en ∈ doc.ents ∧ en.label = "TOOL" ∧ en.text = s) ∧
    (∀ en, en ∈ doc.ents → en.label = "TECH" → en.text ∈ _extract_skills doc) ∧
    ("AWS" ∈ _extract_skills (Doc.mk
        [Entity.mk ("AWS") ("TECH") (""),
          Entity.mk ("Certified Solutions") ("CERTIFICATION") (""),
          Entity.mk ("Docker") ("TOOL") ("")] [] [] []) ∧
      _extract_certifications (Doc.mk
        [Entity.mk ("AWS") ("TECH") (""),
          Entity.mk ("Certified Solutions") ("CERTIFICATION") (""),
          Entity.mk ("Docker") ("TOOL") ("")] [] [] []) = ["Certified Solutions"] ∧
      _extract_tools (Doc.mk
        [Entity.mk ("AWS") ("TECH") (""),
          Entity.mk ("Certified Solutions") ("CERTIFICATION") (""),
          Entity.mk ("Docker") ("TOOL") ("")] [] [] []) = ["Docker"]) := by
  refine ⟨?_, ?_, ?_, by decide, by decide, by decide⟩
  · intro s
    simp only [_extract_certifications, List.mem_dedup, List.mem_map, List.mem_filter,
      beq_iff_eq]
    constructor
    · rintro ⟨en, ⟨hen, hlab⟩, htext⟩
      exact ⟨en, hen, hlab, htext⟩
    · rintro ⟨en, hen, hlab, htext⟩
      exact ⟨en, ⟨hen, hlab⟩, htext⟩
  · intro s
    simp only [_extract_tools, List.mem_dedup, List.mem_map, List.mem_filter, beq_iff_eq]
    constructor
    · rintro ⟨en, ⟨hen, hlab⟩, htext⟩
      exact ⟨en, hen, hlab, htext⟩
    · rintro ⟨en, hen, hlab, htext⟩
      exact ⟨en, ⟨hen, hlab⟩, htext⟩
  · intro en hen hlab
    simp only [_extract_skills, List.mem_dedup, List.mem_append, List.mem_map,
      List.mem_filter, beq_iff_eq]
    exact Or.inr ⟨en, ⟨hen, hlab⟩, rfl⟩

/-- C8 witness: the TECH-superset statement applied to a one-entity
document. -/
theorem c8_entity_label_fields_witness :
    ("AWS" : String) ∈ _extract_skills (Doc.mk [Entity.mk ("AWS") ("TECH") ("")] [] [] []) :=
  (c8_entity_label_fields (Doc.mk [Entity.mk ("AWS") ("TECH") ("")] [] [] [])).2.2.1
    (Entity.mk ("AWS") ("TECH") ("")) (by decide) rfl

/-- C9: when no sentence contains the substring `" at "`, the companies
result is empty even if ORG entities are present: an ORG sentence appends
nothing unless some earlier-or-same sentence set `current_company`. -/
theorem c9_no_at_no_companies (doc : Doc)
    (h : ∀ s ∈ doc.sents, containsSub s.text (" at ") = false) :
    _extract_companies doc = [] := by
  unfold _extract_companies
  rw [companies_no_at doc.sents h []]
  rfl

/-- C9 witness: a document with an ORG entity but no `" at "` yields no
companies. -/
theorem c9_no_at_no_companies_witness :
    _extract_companies (Doc.mk []
      [Sentence.mk ("Acme is big.") [Entity.mk ("Acme") ("ORG") ("")]] [] []) = [] :=
  c9_no_at_no_companies
    (Doc.mk [] [Sentence.mk ("Acme is big.") [Entity.mk ("Acme") ("ORG") ("")]] [] [])
    (by decide)

/-- C10: the experience calculation is total — an unparseable candidate
(`None`) never reaches the subtraction: the result is either 0 (in
particular whenever no valid date survives the filter) or the
floor-divided difference of two valid (parsed) dates. -/
theorem c10_experience_totality (dp : String → Option Int) (ents : List Entity) :
    (validDates dp ents = [] → _calculate_experience dp ents = 0) ∧
    (_calculate_experience dp ents = 0 ∨
      ∃ lo hi, lo ∈ validDates dp ents ∧ hi ∈ validDates dp ents ∧
        _calculate_experience dp ents = Int.fdiv (hi - lo) 365) := by
  obtain ⟨h0, h1⟩ := calc_analysis dp ents
  constructor
  · intro hnil
    refine h0 ?_
    rw [hnil]
    decide
  · by_cases hl : (validDates dp ents).length < 2
    · exact Or.inl (h0 hl)
    · obtain ⟨lo, hi, hlo, hhi, -, heq⟩ := h1 (by omega)
      exact Or.inr ⟨lo, hi, hlo, hhi, heq⟩

/-- C10 witness: with every candidate unparseable the filter leaves no
valid date and the result is 0. -/
theorem c10_experience_totality_witness :
    _calculate_experience (fun _ => none)
      [Entity.mk ("January 2010") ("DATE") (""),
        Entity.mk ("January 2020") ("DATE") ("")] = 0 :=
  (c10_experience_totality (fun _ => none)
    [Entity.mk ("January 2010") ("DATE") (""),
      Entity.mk ("January 2020") ("DATE") ("")]).1 (by decide)

end ResumeSpec
